import Mathlib

/-!
A shallow embedding of the CTF event model of this repository
(include/lttng/ctf.h and src/ctf.cpp): scopes, integers, enumerators, the
recursive field variant, fields, events, the typed FieldSpec accessors, the
per-field decode callbacks and the trace enumeration loop. Machine integers
are modelled as Nat and Int (the code only stores and returns them, it never
computes with them), doubles as opaque 64-bit patterns, and every throwing
C++ operation as an Except value.
-/

/-- Decidable equality of Except values, used to evaluate the embedded
throwing operations on concrete inputs. -/
instance {ε α : Type} [DecidableEq ε] [DecidableEq α] : DecidableEq (Except ε α) := fun x y =>
  match x, y with
  | .ok a, .ok b =>
      if h : a = b then isTrue (by rw [h]) else isFalse (fun c => h (Except.ok.inj c))
  | .error a, .error b =>
      if h : a = b then isTrue (by rw [h]) else isFalse (fun c => h (Except.error.inj c))
  | .ok _, .error _ => isFalse (fun c => Except.noConfusion c)
  | .error _, .ok _ => isFalse (fun c => Except.noConfusion c)

namespace ctf

/-- Models `ctf::Void` (ctf.h line 22): the designated empty type. -/
structure Void where
  deriving DecidableEq

/-- Models `ctf::Scope` (ctf.h lines 25 to 33): the six top-level scopes. -/
inductive Scope where
  | trace_packet_header
  | stream_packet_context
  | stream_event_header
  | stream_event_context
  | event_context
  | event_fields
  deriving DecidableEq, Fintype

/-- Models `ctf::scopes()` (ctf.cpp lines 212 to 225): the iteration order
over scopes used during event assembly. -/
def scopes : List Scope :=
  [.trace_packet_header, .stream_packet_context, .stream_event_header,
   .stream_event_context, .event_context, .event_fields]

/-- Models `ctf::Integer::Value = boost::variant<Void, std::int64_t,
std::uint64_t>` (ctf.h line 48). The constructor order mirrors the
alternative index reported by `which()`: 0 = Void, 1 = signed, 2 = unsigned. -/
inductive IntegerValue where
  | void
  | signed (i : Int)
  | unsigned (u : Nat)
  deriving DecidableEq

/-- Models the exceptions of the typed accessor layer: `keyNotFound` stands
for the `std::out_of_range` thrown by `std::map::at` (the KeyNotFoundError of
the specification) and `typeMismatch` for the `boost::bad_get` thrown by
`boost::get` (the TypeMismatchError of the specification). -/
inductive AccessError where
  | keyNotFound
  | typeMismatch
  deriving DecidableEq

/-- Models `ctf::Integer` (ctf.h lines 44 to 81): width and base are
descriptive metadata, `value` is the payload. -/
structure Integer where
  width : Nat
  base : Nat
  value : IntegerValue
  deriving DecidableEq

/-- Models the default constructor `Integer::Integer()` (ctf.cpp 254 to 259):
width 0, base 0, Void payload. -/
def Integer.empty : Integer :=
  { width := 0, base := 0, value := .void }

/-- Models `Integer::Integer(std::int64_t, std::uint8_t, std::uint64_t)`
(ctf.cpp 261 to 266). -/
def Integer.ofSigned (i : Int) (width base : Nat) : Integer :=
  { width := width, base := base, value := .signed i }

/-- Models `Integer::Integer(std::uint64_t, std::uint8_t, std::uint64_t)`
(ctf.cpp 268 to 273). -/
def Integer.ofUnsigned (u : Nat) (width base : Nat) : Integer :=
  { width := width, base := base, value := .unsigned u }

/-- Models `Integer::is_signed` (ctf.cpp 285 to 288): `value_.which() == 1`. -/
def Integer.is_signed (x : Integer) : Bool :=
  match x.value with
  | .signed _ => true
  | _ => false

/-- Models `Integer::is_empty` (ctf.cpp 290 to 293): `value_.which() == 0`. -/
def Integer.is_empty (x : Integer) : Bool :=
  match x.value with
  | .void => true
  | _ => false

/-- Models `Integer::as_int64` (ctf.cpp 295 to 298): `boost::get<std::int64_t>`,
which throws `boost::bad_get` unless the signed alternative is populated. -/
def Integer.as_int64 (x : Integer) : Except AccessError Int :=
  match x.value with
  | .signed i => .ok i
  | _ => .error .typeMismatch

/-- Models `Integer::as_uint64` (ctf.cpp 300 to 303): `boost::get<std::uint64_t>`. -/
def Integer.as_uint64 (x : Integer) : Except AccessError Nat :=
  match x.value with
  | .unsigned u => .ok u
  | _ => .error .typeMismatch

/-- Models `ctf::Enumerator` (ctf.h lines 84 to 88). -/
structure Enumerator where
  as_string : String
  as_integer : Integer
  deriving DecidableEq

/-- An IEEE double-precision value carried opaquely as its 64-bit pattern.
The code only moves doubles from the engine into fields and back out; no
claim depends on floating-point arithmetic. -/
structure Double where
  bits : Nat
  deriving DecidableEq

/-- Models `ctf::Field::Type` (ctf.h lines 94 to 106): the ten field kinds,
in declaration order (so that the underlying values 0 to 9 coincide with the
babeltrace `ctf_type_id` values cast in `process_field_definition`). -/
inductive FieldType where
  | unknown
  | integer
  | floating_point
  | enumeration
  | string
  | «structure»
  | untagged_variant
  | variant
  | array
  | sequence
  deriving DecidableEq, Fintype

/-- Models `ctf::Field::Variant` (ctf.h lines 109 to 118), the recursive
boost variant: Void, Integer, double, Enumerator, string, a boxed Variant
(the `boost::recursive_variant_` alternative) or a vector of Variant. -/
inductive Variant where
  | void
  | integer (i : Integer)
  | floating (d : Double)
  | enumerator (e : Enumerator)
  | string (s : String)
  | boxed (v : Variant)
  | sequence (vs : List Variant)

mutual

/-- Decidable equality of Variant values (the boost variant compares
component-wise); spelt out because the recursive arm nests a list. -/
def Variant.decEq : (a b : Variant) → Decidable (a = b)
  | .void, .void => isTrue rfl
  | .void, .integer _ => isFalse (fun h => Variant.noConfusion h)
  | .void, .floating _ => isFalse (fun h => Variant.noConfusion h)
  | .void, .enumerator _ => isFalse (fun h => Variant.noConfusion h)
  | .void, .string _ => isFalse (fun h => Variant.noConfusion h)
  | .void, .boxed _ => isFalse (fun h => Variant.noConfusion h)
  | .void, .sequence _ => isFalse (fun h => Variant.noConfusion h)
  | .integer _, .void => isFalse (fun h => Variant.noConfusion h)
  | .integer i, .integer j =>
      if h : i = j then isTrue (congrArg Variant.integer h)
      else isFalse (fun c => h (Variant.integer.inj c))
  | .integer _, .floating _ => isFalse (fun h => Variant.noConfusion h)
  | .integer _, .enumerator _ => isFalse (fun h => Variant.noConfusion h)
  | .integer _, .string _ => isFalse (fun h => Variant.noConfusion h)
  | .integer _, .boxed _ => isFalse (fun h => Variant.noConfusion h)
  | .integer _, .sequence _ => isFalse (fun h => Variant.noConfusion h)
  | .floating _, .void => isFalse (fun h => Variant.noConfusion h)
  | .floating _, .integer _ => isFalse (fun h => Variant.noConfusion h)
  | .floating d, .floating e =>
      if h : d = e then isTrue (congrArg Variant.floating h)
      else isFalse (fun c => h (Variant.floating.inj c))
  | .floating _, .enumerator _ => isFalse (fun h => Variant.noConfusion h)
  | .floating _, .string _ => isFalse (fun h => Variant.noConfusion h)
  | .floating _, .boxed _ => isFalse (fun h => Variant.noConfusion h)
  | .floating _, .sequence _ => isFalse (fun h => Variant.noConfusion h)
  | .enumerator _, .void => isFalse (fun h => Variant.noConfusion h)
  | .enumerator _, .integer _ => isFalse (fun h => Variant.noConfusion h)
  | .enumerator _, .floating _ => isFalse (fun h => Variant.noConfusion h)
  | .enumerator x, .enumerator y =>
      if h : x = y then isTrue (congrArg Variant.enumerator h)
      else isFalse (fun c => h (Variant.enumerator.inj c))
  | .enumerator _, .string _ => isFalse (fun h => Variant.noConfusion h)
  | .enumerator _, .boxed _ => isFalse (fun h => Variant.noConfusion h)
  | .enumerator _, .sequence _ => isFalse (fun h => Variant.noConfusion h)
  | .string _, .void => isFalse (fun h => Variant.noConfusion h)
  | .string _, .integer _ => isFalse (fun h => Variant.noConfusion h)
  | .string _, .floating _ => isFalse (fun h => Variant.noConfusion h)
  | .string _, .enumerator _ => isFalse (fun h => Variant.noConfusion h)
  | .string s, .string t =>
      if h : s = t then isTrue (congrArg Variant.string h)
      else isFalse (fun c => h (Variant.string.inj c))
  | .string _, .boxed _ => isFalse (fun h => Variant.noConfusion h)
  | .string _, .sequence _ => isFalse (fun h => Variant.noConfusion h)
  | .boxed _, .void => isFalse (fun h => Variant.noConfusion h)
  | .boxed _, .integer _ => isFalse (fun h => Variant.noConfusion h)
  | .boxed _, .floating _ => isFalse (fun h => Variant.noConfusion h)
  | .boxed _, .enumerator _ => isFalse (fun h => Variant.noConfusion h)
  | .boxed _, .string _ => isFalse (fun h => Variant.noConfusion h)
  | .boxed v, .boxed w =>
      match Variant.decEq v w with
      | isTrue h => isTrue (congrArg Variant.boxed h)
      | isFalse h => isFalse (fun c => h (Variant.boxed.inj c))
  | .boxed _, .sequence _ => isFalse (fun h => Variant.noConfusion h)
  | .sequence _, .void => isFalse (fun h => Variant.noConfusion h)
  | .sequence _, .integer _ => isFalse (fun h => Variant.noConfusion h)
  | .sequence _, .floating _ => isFalse (fun h => Variant.noConfusion h)
  | .sequence _, .enumerator _ => isFalse (fun h => Variant.noConfusion h)
  | .sequence _, .string _ => isFalse (fun h => Variant.noConfusion h)
  | .sequence _, .boxed _ => isFalse (fun h => Variant.noConfusion h)
  | .sequence vs, .sequence ws =>
      match Variant.decEqList vs ws with
      | isTrue h => isTrue (congrArg Variant.sequence h)
      | isFalse h => isFalse (fun c => h (Variant.sequence.inj c))

/-- Decidable equality of Variant lists, mutually with `Variant.decEq`. -/
def Variant.decEqList : (as bs : List Variant) → Decidable (as = bs)
  | [], [] => isTrue rfl
  | [], _ :: _ => isFalse (fun h => List.noConfusion h)
  | _ :: _, [] => isFalse (fun h => List.noConfusion h)
  | a :: as, b :: bs =>
      match Variant.decEq a b, Variant.decEqList as bs with
      | isTrue h1, isTrue h2 => isTrue (by rw [h1, h2])
      | isFalse h1, _ => isFalse (fun c => h1 (List.cons.inj c).1)
      | isTrue _, isFalse h2 => isFalse (fun c => h2 (List.cons.inj c).2)

end

instance : DecidableEq Variant := Variant.decEq

/-- Models `ctf::Field` (ctf.h lines 91 to 164): a name, a type tag and a
Variant payload. The constructor performs no consistency check between the
tag and the populated alternative. -/
structure Field where
  name : String
  type : FieldType
  value : Variant
  deriving DecidableEq

/-- Models `Field::is_a` (ctf.cpp 317 to 320): `type_ == type`. -/
def Field.is_a (f : Field) (t : FieldType) : Bool :=
  decide (f.type = t)

/-- Models `Field::as_integer` (ctf.cpp 332 to 335): `boost::get<ctf::Integer>`. -/
def Field.as_integer (f : Field) : Except AccessError Integer :=
  match f.value with
  | .integer i => .ok i
  | _ => .error .typeMismatch

/-- Models `Field::as_floating_point` (ctf.cpp 337 to 340): `boost::get<double>`. -/
def Field.as_floating_point (f : Field) : Except AccessError Double :=
  match f.value with
  | .floating d => .ok d
  | _ => .error .typeMismatch

/-- Models `Field::as_enumerator` (ctf.cpp 342 to 345): `boost::get<ctf::Enumerator>`. -/
def Field.as_enumerator (f : Field) : Except AccessError Enumerator :=
  match f.value with
  | .enumerator e => .ok e
  | _ => .error .typeMismatch

/-- Models `Field::as_string` (ctf.cpp 347 to 350): `boost::get<std::string>`. -/
def Field.as_string (f : Field) : Except AccessError String :=
  match f.value with
  | .string s => .ok s
  | _ => .error .typeMismatch

/-- Models `Field::unwrap` (ctf.cpp 352 to 355): `boost::get<Field::Variant>`,
which succeeds only when the recursive (boxed) alternative is populated. -/
def Field.unwrap (f : Field) : Except AccessError Variant :=
  match f.value with
  | .boxed v => .ok v
  | _ => .error .typeMismatch

/-- Models `Field::as_collection` (ctf.cpp 357 to 360):
`boost::get<std::vector<Field::Variant>>`. -/
def Field.as_collection (f : Field) : Except AccessError (List Variant) :=
  match f.value with
  | .sequence vs => .ok vs
  | _ => .error .typeMismatch

/-- Models `ctf::Event::Key = std::tuple<Scope, std::string>` (ctf.h line 305). -/
abbrev EventKey := Scope × String

/-- Models `ctf::Event::Fields = std::map<Key, Field>` (ctf.h line 309),
represented as an association list in insertion order. `std::map::find`
corresponds to `lookupField` and `std::map::insert` (which keeps an already
present entry) to `insertField`. -/
abbrev Fields := List (EventKey × Field)

/-- Models `ctf::Event` (ctf.h lines 302 to 315). -/
structure Event where
  name : String
  cycles : Nat
  timestamp : Int
  fields : Fields
  deriving DecidableEq

/-- Models `std::map::find` on `Event::Fields`: the entry under the key, if
any. Keys of an assembled event are unique, so the first match is the match. -/
def lookupField : Fields → EventKey → Option Field
  | [], _ => none
  | p :: rest, k => if p.1 = k then some p.2 else lookupField rest k

/-- Models `std::map::insert` on `Event::Fields`: when the key is already
present the existing entry is kept and the new pair is discarded. -/
def insertField (fs : Fields) (k : EventKey) (f : Field) : Fields :=
  match lookupField fs k with
  | some _ => fs
  | none => fs ++ [(k, f)]

/-- Repeated `std::map::insert` over a list of decoded pairs, in order. -/
def insertAll (fs : Fields) (ps : List (EventKey × Field)) : Fields :=
  ps.foldl (fun a p => insertField a p.1 p.2) fs

/-- Models `TypeMapper<type>::Type` (ctf.h lines 166 to 271): the host type
statically associated with each field type tag. The primary template maps
`unknown` to Void. -/
@[reducible] def HostType : FieldType → Type
  | .unknown => Void
  | .integer => Integer
  | .floating_point => Double
  | .enumeration => Enumerator
  | .string => String
  | .«structure» => List Variant
  | .untagged_variant => Variant
  | .variant => Variant
  | .array => List Variant
  | .sequence => List Variant

/-- Models `TypeMapper<type>::extract` (ctf.h lines 166 to 271), each
specialization delegating to the matching Field accessor. The primary
template for `unknown` only declares `extract` and never defines it, so a
`FieldSpec<unknown>` cannot be linked; it is modelled as always failing and
the claims exclude the `unknown` tag where the distinction matters. -/
def TypeMapper.extract : (t : FieldType) → Field → Except AccessError (HostType t)
  | .unknown, _ => .error .typeMismatch
  | .integer, f => f.as_integer
  | .floating_point, f => f.as_floating_point
  | .enumeration, f => f.as_enumerator
  | .string, f => f.as_string
  | .«structure», f => f.as_collection
  | .untagged_variant, f => f.unwrap
  | .variant, f => f.unwrap
  | .array, f => f.as_collection
  | .sequence, f => f.as_collection

/-- The populated Variant alternative required by `TypeMapper<t>::extract`:
true iff the `boost::get` performed for tag `t` succeeds on `v`. For
`unknown` no extraction exists, so no alternative matches. -/
def altMatches : FieldType → Variant → Bool
  | .integer, .integer _ => true
  | .floating_point, .floating _ => true
  | .enumeration, .enumerator _ => true
  | .string, .string _ => true
  | .«structure», .sequence _ => true
  | .array, .sequence _ => true
  | .sequence, .sequence _ => true
  | .untagged_variant, .boxed _ => true
  | .variant, .boxed _ => true
  | _, _ => false

/-- Models `ctf::FieldSpec<type>` (ctf.h lines 322 to 372): a binding of a
scope, a name and a compile-time field type tag. -/
structure FieldSpec where
  scope : Scope
  name : String
  type : FieldType

/-- Models `FieldSpec::available_in` (ctf.h 340 to 348): `find` the
(scope, name) key, false when absent, otherwise `is_a` on the stored field.
Both steps are non-throwing. -/
def FieldSpec.available_in (s : FieldSpec) (e : Event) : Bool :=
  match lookupField e.fields (s.scope, s.name) with
  | none => false
  | some f => f.is_a s.type

/-- Models `FieldSpec::interpret_or_throw` (ctf.h 364 to 367):
`TypeMapper<type>::extract(e.fields.at(key))`. `std::map::at` throws
`std::out_of_range` when the key is absent; `extract` throws
`boost::bad_get` when the populated alternative does not match. -/
def FieldSpec.interpret_or_throw (s : FieldSpec) (e : Event) :
    Except AccessError (HostType s.type) :=
  match lookupField e.fields (s.scope, s.name) with
  | none => .error .keyNotFound
  | some f => TypeMapper.extract s.type f

/-- Models `FieldSpec::interpret` (ctf.h 353 to 359): an empty optional when
`available_in` is false, otherwise the result of `interpret_or_throw`, whose
exception (if any) propagates. -/
def FieldSpec.interpret (s : FieldSpec) (e : Event) :
    Except AccessError (Option (HostType s.type)) :=
  if s.available_in e then (s.interpret_or_throw e).map some else .ok none

/-- Models the decode failures of the callback layer, each standing for one
`std::runtime_error` site: the float and string readers of
`process_field_value`, and the two throw sites of the (never called) helper
`process_enum_field_value`. -/
inductive DecodeError where
  | floatDecode
  | stringDecode
  | enumLabelDecode
  | enumIntDecode
  deriving DecidableEq

/-- Models `CallbackContext::process_integer_field_value` (ctf.cpp 29 to 45):
the engine supplies the signedness together with both raw readings, the
width and the base; no engine error flag is consulted, so this reader never
fails. A signedness other than 0 or 1 yields the default empty Integer. -/
def process_integer_field_value (signedness : Int) (i : Int) (u : Nat)
    (width base : Nat) : Integer :=
  if signedness = 0 then Integer.ofUnsigned u width base
  else if signedness = 1 then Integer.ofSigned i width base
  else Integer.empty

/-- Models `CallbackContext::process_float_field_value` (ctf.cpp 49 to 57):
the reading fails when the engine error flag is set after `bt_ctf_get_float`. -/
def process_float_field_value (value : Double) (err : Bool) :
    Except DecodeError Double :=
  if err then .error .floatDecode else .ok value

/-- Models `CallbackContext::process_string_field_value` (ctf.cpp 81 to 90):
the reading fails when the engine error flag is set after `bt_ctf_get_string`. -/
def process_string_field_value (s : String) (err : Bool) :
    Except DecodeError String :=
  if err then .error .stringDecode else .ok s

/-- Models `CallbackContext::process_enum_field_value` (ctf.cpp 61 to 77):
the label is read first and a set engine error flag fails the call; then the
inner integer is read and a set flag fails the call; otherwise both parts
populate the Enumerator. NOTE: this helper is dead code in the repository;
`process_field_value` handles CTF_TYPE_ENUM with
`process_integer_field_value` instead (ctf.cpp 109 to 111). -/
def process_enum_field_value (label : String) (labelErr : Bool)
    (signedness : Int) (i : Int) (u : Nat) (width base : Nat)
    (intErr : Bool) : Except DecodeError Enumerator :=
  if labelErr then .error .enumLabelDecode
  else if intErr then .error .enumIntDecode
  else .ok { as_string := label,
             as_integer := process_integer_field_value signedness i u width base }

/-- One schema-described field position as supplied by the decode engine: for
each leaf, the values the bt_ctf getters return together with the state of
the engine error flag after the relevant call; for composites, the child
positions (for arrays and sequences together with the success of
`bt_ctf_get_field_list`). The constructor corresponds to the kind reported by
`bt_ctf_field_type`. -/
inductive RawField where
  | unknownField : RawField
  | integerField (signedness : Int) (i : Int) (u : Nat) (width base : Nat) : RawField
  | floatField (value : Double) (err : Bool) : RawField
  | enumField (label : String) (labelErr : Bool) (signedness : Int) (i : Int)
      (u : Nat) (width base : Nat) (intErr : Bool) : RawField
  | stringField (s : String) (err : Bool) : RawField
  | structField (children : List RawField) : RawField
  | variantField (tagged : Bool) (child : RawField) : RawField
  | arrayField (listOk : Bool) (children : List RawField) : RawField
  | sequenceField (listOk : Bool) (children : List RawField) : RawField

/-- The `ctf::Field::Type` obtained by `static_cast` from the kind the engine
reports for a raw field (ctf.cpp line 163); the two enums coincide value for
value. -/
def rawType : RawField → FieldType
  | .unknownField => .unknown
  | .integerField .. => .integer
  | .floatField .. => .floating_point
  | .enumField .. => .enumeration
  | .stringField .. => .string
  | .structField .. => .«structure»
  | .variantField tagged _ => if tagged then .variant else .untagged_variant
  | .arrayField .. => .array
  | .sequenceField .. => .sequence

mutual

/-- Models `CallbackContext::process_field_value` (ctf.cpp 94 to 154).
Mirrors the switch case for case: CTF_TYPE_UNKNOWN leaves the default Void;
CTF_TYPE_ENUM delegates to `process_integer_field_value`, so the resulting
alternative is an Integer and the symbolic label is never read;
CTF_TYPE_STRUCT collects the child values into the vector alternative;
CTF_TYPE_UNTAGGED_VARIANT and CTF_TYPE_VARIANT decode the selected arm and
copy-assign its Variant to the result (a boost::variant copy assignment
keeps the populated alternative of the right hand side, it does not populate
the recursive boxed alternative); CTF_TYPE_ARRAY and CTF_TYPE_SEQUENCE
collect the child values when `bt_ctf_get_field_list` succeeds and otherwise
leave the vector empty. -/
def decodeFieldValue : RawField → Except DecodeError Variant
  | .unknownField => .ok .void
  | .integerField sg i u w b => .ok (.integer (process_integer_field_value sg i u w b))
  | .floatField d err => (process_float_field_value d err).map .floating
  | .enumField _ _ sg i u w b _ => .ok (.integer (process_integer_field_value sg i u w b))
  | .stringField s err => (process_string_field_value s err).map .string
  | .structField cs => (decodeFieldList cs).map .sequence
  | .variantField _ c => decodeFieldValue c
  | .arrayField listOk cs =>
      if listOk then (decodeFieldList cs).map .sequence else .ok (.sequence [])
  | .sequenceField listOk cs =>
      if listOk then (decodeFieldList cs).map .sequence else .ok (.sequence [])

/-- The child loop of the struct, array and sequence cases of
`process_field_value`: children are decoded in order and the first failure
aborts the whole call. -/
def decodeFieldList : List RawField → Except DecodeError (List Variant)
  | [] => .ok []
  | c :: cs => do
      let v ← decodeFieldValue c
      let vs ← decodeFieldList cs
      return v :: vs

end

/-- Models `CallbackContext::process_field_definition` (ctf.cpp 158 to 164):
a Field built from the engine-reported name, the cast type tag and the
decoded value. -/
def process_field_definition (name : String) (rf : RawField) :
    Except DecodeError Field :=
  (decodeFieldValue rf).map fun v => { name := name, type := rawType rf, value := v }

/-- The decode switch never populates the Enumerator alternative: every case
yields Void, an Integer, a float, a string or a vector, and the variant case
copies the value decoded for the selected arm. -/
def decode_no_enumerator : (rf : RawField) → (en : Enumerator) →
    decodeFieldValue rf ≠ .ok (.enumerator en)
  | .unknownField, _ => by simp [decodeFieldValue]
  | .integerField _ _ _ _ _, _ => by simp [decodeFieldValue]
  | .floatField d err, _ => by
      simp only [decodeFieldValue, process_float_field_value]
      split <;> simp [Except.map]
  | .enumField _ _ _ _ _ _ _ _, _ => by simp [decodeFieldValue]
  | .stringField s err, _ => by
      simp only [decodeFieldValue, process_string_field_value]
      split <;> simp [Except.map]
  | .structField cs, _ => by
      simp only [decodeFieldValue]
      cases decodeFieldList cs <;> simp [Except.map]
  | .variantField t c, en => by
      simpa only [decodeFieldValue] using decode_no_enumerator c en
  | .arrayField listOk cs, _ => by
      simp only [decodeFieldValue]
      split
      · cases decodeFieldList cs <;> simp [Except.map]
      · simp
  | .sequenceField listOk cs, _ => by
      simp only [decodeFieldValue]
      split
      · cases decodeFieldList cs <;> simp [Except.map]
      · simp

/-- The decode switch never populates the recursive boxed alternative: the
variant cases copy-assign the Variant decoded for the selected arm, which
keeps that value as it is rather than wrapping it. -/
def decode_no_boxed : (rf : RawField) → (v : Variant) →
    decodeFieldValue rf ≠ .ok (.boxed v)
  | .unknownField, _ => by simp [decodeFieldValue]
  | .integerField _ _ _ _ _, _ => by simp [decodeFieldValue]
  | .floatField d err, _ => by
      simp only [decodeFieldValue, process_float_field_value]
      split <;> simp [Except.map]
  | .enumField _ _ _ _ _ _ _ _, _ => by simp [decodeFieldValue]
  | .stringField s err, _ => by
      simp only [decodeFieldValue, process_string_field_value]
      split <;> simp [Except.map]
  | .structField cs, _ => by
      simp only [decodeFieldValue]
      cases decodeFieldList cs <;> simp [Except.map]
  | .variantField t c, v => by
      simpa only [decodeFieldValue] using decode_no_boxed c v
  | .arrayField listOk cs, _ => by
      simp only [decodeFieldValue]
      split
      · cases decodeFieldList cs <;> simp [Except.map]
      · simp
  | .sequenceField listOk cs, _ => by
      simp only [decodeFieldValue]
      split
      · cases decodeFieldList cs <;> simp [Except.map]
      · simp

/-- One raw event position as supplied by the engine: the values of
`bt_ctf_event_name`, `bt_ctf_get_cycles` and `bt_ctf_get_timestamp`,
and per scope the field list `bt_ctf_get_field_list` yields for the
top-level definition of that scope (empty when the engine reports none). -/
structure RawEvent where
  name : String
  cycles : Nat
  timestamp : Int
  scopeFields : Scope → List (String × RawField)

/-- The inner loop of `CallbackContext::on_new_event` (ctf.cpp 193 to 200)
for one scope: each listed field is decoded by `process_field_definition`
(a failure aborts the whole event, even for a field whose key is already
taken) and inserted into the accumulated map under its (scope, name) key. -/
def assembleScopeFields (scope : Scope) :
    Fields → List (String × RawField) → Except DecodeError Fields
  | fs, [] => .ok fs
  | fs, (n, rf) :: rest => do
      let f ← process_field_definition n rf
      assembleScopeFields scope (insertField fs (scope, n) f) rest

/-- The outer loop of `CallbackContext::on_new_event` (ctf.cpp 186 to 201):
scopes are visited in the order of `ctf::scopes()`. -/
def assembleScopes (raw : Scope → List (String × RawField)) :
    Fields → List Scope → Except DecodeError Fields
  | fs, [] => .ok fs
  | fs, s :: rest => do
      let fs2 ← assembleScopeFields s fs (raw s)
      assembleScopes raw fs2 rest

/-- Models the event assembly of `CallbackContext::on_new_event`
(ctf.cpp 176 to 201): name, cycles and timestamp are copied from the raw
event and the field map is filled scope by scope. A decode failure aborts
the whole assembly, so no partially assembled Event ever exists. -/
def assembleEvent (re : RawEvent) : Except DecodeError Event :=
  (assembleScopes re.scopeFields [] scopes).map fun fs =>
    { name := re.name, cycles := re.cycles, timestamp := re.timestamp, fields := fs }

/-- Assembly of a whole list of raw events, in order, with the first failure
aborting; used to phrase properties of the enumeration loop. -/
def assembleAll : List RawEvent → Except DecodeError (List Event)
  | [] => .ok []
  | re :: rest => do
      let e ← assembleEvent re
      let es ← assembleAll rest
      return e :: es

/-- The per-scope decode of one raw event as a flat list of (key, field)
pairs in decode order, without the map insertion (so duplicate keys remain
visible); used to phrase the first-insert-wins property of assembly. -/
def decodeScopePairs (scope : Scope) :
    List (String × RawField) → Except DecodeError (List (EventKey × Field))
  | [] => .ok []
  | (n, rf) :: rest => do
      let f ← process_field_definition n rf
      let ps ← decodeScopePairs scope rest
      return ((scope, n), f) :: ps

/-- The flat decoded (key, field) list of a raw event over a list of scopes,
in decode order. -/
def decodeScopesPairs (raw : Scope → List (String × RawField)) :
    List Scope → Except DecodeError (List (EventKey × Field))
  | [] => .ok []
  | s :: rest => do
      let ps ← decodeScopePairs s (raw s)
      let qs ← decodeScopesPairs raw rest
      return ps ++ qs

/-- All (key, field) pairs of a raw event in decode order, duplicates
included. -/
def decodedPairs (re : RawEvent) : Except DecodeError (List (EventKey × Field)) :=
  decodeScopesPairs re.scopeFields scopes

/-- Models `Trace::EventEnumeratorReply` (ctf.h lines 379 to 385). -/
inductive EventEnumeratorReply where
  | ok
  | stop
  | stop_with_error
  | continue_with_error
  deriving DecidableEq, Fintype

/-- Models the babeltrace callback return enum `bt_cb_ret`. -/
inductive bt_cb_ret where
  | cb_ok
  | cb_ok_stop
  | cb_error_stop
  | cb_error_continue
  deriving DecidableEq

/-- Models `to_c_api` (ctf.cpp 7 to 22): the translation of a handler reply
to the babeltrace callback return value. The switch covers all four replies;
the trailing throw is unreachable. -/
def to_c_api : EventEnumeratorReply → bt_cb_ret
  | .ok => .cb_ok
  | .stop => .cb_ok_stop
  | .stop_with_error => .cb_error_stop
  | .continue_with_error => .cb_error_continue

/-- The terminal state of one enumeration: cursor exhaustion (a successful
end distinct from a requested stop), a stop requested by the handler reply,
or a decode failure surfacing as the final outcome. -/
inductive TraceOutcome where
  | exhausted
  | stopped
  | failed (err : DecodeError)
  deriving DecidableEq

/-- Models `Trace::for_each_event` (ctf.cpp 497 to 524) driving the
babeltrace iterator with `CallbackContext::on_new_event` registered for
every event. The callback itself is repository code: it assembles the Event
and returns `to_c_api` of the handler reply, and a decode failure propagates
out (there is no catch anywhere on the path). The iterator behaviour is
external to this repository and is modelled from the specification
(sections 4.3 and 6): raw events are yielded in engine order; BT_CB_OK and
BT_CB_ERROR_CONTINUE continue the iteration while BT_CB_OK_STOP and
BT_CB_ERROR_STOP end it in the stopped state; running out of events ends it
in the distinct exhausted state. Returns the events dispatched to the
handler, in dispatch order, together with the terminal outcome. -/
def runEvents (h : Event → EventEnumeratorReply) :
    List RawEvent → List Event × TraceOutcome
  | [] => ([], .exhausted)
  | re :: rest =>
    match assembleEvent re with
    | .error err => ([], .failed err)
    | .ok e =>
      match to_c_api (h e) with
      | .cb_ok_stop => ([e], .stopped)
      | .cb_error_stop => ([e], .stopped)
      | _ =>
        let r := runEvents h rest
        (e :: r.1, r.2)

/-- Models `operator<<(std::ostream&, Scope)` (ctf.cpp 233 to 252): the text
the switch writes for each of the six scopes. -/
def scopeText : Scope → String
  | .trace_packet_header => "trace_packet_header"
  | .stream_packet_context => "stream_packet_context"
  | .stream_event_header => "stream_event_header"
  | .stream_event_context => "stream_event_context"
  | .event_context => "event_context"
  | .event_fields => "event_fields"

/-- Models `operator<<(std::ostream&, const Field::Type&)` (ctf.cpp 382 to
408): the text the switch writes for each of the ten field kinds. -/
def fieldTypeText : FieldType → String
  | .unknown => "unknown"
  | .integer => "integer"
  | .floating_point => "floating_point"
  | .enumeration => "enumeration"
  | .string => "string"
  | .«structure» => "structure"
  | .untagged_variant => "untagged_variant"
  | .variant => "variant"
  | .array => "array"
  | .sequence => "sequence"

/-- The underlying numeric value of each enumerator of the unscoped enum
`Trace::EventEnumeratorReply` (ctf.h 379 to 385): no initializers, so the
values are 0, 1, 2, 3 in declaration order. -/
def replyValue : EventEnumeratorReply → Nat
  | .ok => 0
  | .stop => 1
  | .stop_with_error => 2
  | .continue_with_error => 3

/-- The repository defines no dedicated stream inserter for
`Trace::EventEnumeratorReply`; since the enum is unscoped, streaming one
picks the builtin integer inserter on the promoted underlying value. This
models that builtin textual form. -/
def replyText (r : EventEnumeratorReply) : String :=
  toString (replyValue r)

/-! Concrete fixtures used to evaluate the embedded definitions on explicit
inputs: small raw events of the shape the decode engine supplies, and the
events assembly produces for them. -/

/-- A raw event with one enumeration field in the event_fields scope, with
no engine errors: label RUNNING, unsigned representation 3, width 32,
base 10. -/
def enumRawEvent : RawEvent :=
  { name := "sched_switch", cycles := 10, timestamp := 20,
    scopeFields := fun s =>
      match s with
      | .event_fields => [("state", .enumField "RUNNING" false 0 0 3 32 10 false)]
      | _ => [] }

/-- The field `assembleEvent` produces for the enumeration field of
`enumRawEvent`: tagged enumeration, but populated with the Integer
alternative. -/
def stateField : Field :=
  { name := "state", type := .enumeration,
    value := .integer (Integer.ofUnsigned 3 32 10) }

/-- The event `assembleEvent` produces for `enumRawEvent`. -/
def enumEvent : Event :=
  { name := "sched_switch", cycles := 10, timestamp := 20,
    fields := [((.event_fields, "state"), stateField)] }

/-- The typed accessor for the enumeration field of `enumRawEvent`, as
application code would build it: `FieldSpec<Field::Type::enumeration>`
bound to (event_fields, state). -/
abbrev stateSpec : FieldSpec :=
  { scope := .event_fields, name := "state", type := .enumeration }

/-- A raw event with the given name and no fields in any scope. -/
def simpleRawEvent (n : String) : RawEvent :=
  { name := n, cycles := 0, timestamp := 0, scopeFields := fun _ => [] }

/-- The event `assembleEvent` produces for `simpleRawEvent n`. -/
def simpleEvent (n : String) : Event :=
  { name := n, cycles := 0, timestamp := 0, fields := [] }

/-- A raw event whose single float field fails to decode: the engine error
flag is set after the float reading. -/
def badFloatRawEvent : RawEvent :=
  { name := "bad", cycles := 0, timestamp := 0,
    scopeFields := fun s =>
      match s with
      | .event_fields => [("x", .floatField { bits := 0 } true)]
      | _ => [] }

/-- A raw event whose engine reports two fields with the same name in the
same scope, with different values (1 first, then 2). -/
def dupRawEvent : RawEvent :=
  { name := "dup", cycles := 0, timestamp := 0,
    scopeFields := fun s =>
      match s with
      | .event_fields =>
          [("k", .integerField 0 0 1 8 10), ("k", .integerField 0 0 2 8 10)]
      | _ => [] }

/-- The event `assembleEvent` produces for `dupRawEvent`: only the field
decoded first survives under the duplicated key. -/
def dupEvent : Event :=
  { name := "dup", cycles := 0, timestamp := 0,
    fields := [((.event_fields, "k"),
      { name := "k", type := .integer, value := .integer (Integer.ofUnsigned 1 8 10) })] }

/-- A handler replying stop to the event named b and ok to every other
event. -/
def stopAtB : Event → EventEnumeratorReply :=
  fun e => if e.name = "b" then .stop else .ok

/-- A handler replying ok to every event. -/
def allOk : Event → EventEnumeratorReply :=
  fun _ => .ok

/-! Helper lemmas shared by the claim theorems. -/

/-- `TypeMapper::extract` either succeeds or raises the narrowing error;
it never raises the lookup error of `std::map::at`. -/
theorem extract_ne_keyNotFound (t : FieldType) (f : Field) :
    TypeMapper.extract t f ≠ .error .keyNotFound := by
  obtain ⟨n, ty, v⟩ := f
  cases t <;> cases v <;>
    simp [TypeMapper.extract, Field.as_integer, Field.as_floating_point,
      Field.as_enumerator, Field.as_string, Field.unwrap, Field.as_collection]

/-- `TypeMapper::extract` raises the narrowing error exactly when the
populated alternative does not match the tag. -/
theorem extract_typeMismatch_iff (t : FieldType) (f : Field) :
    TypeMapper.extract t f = .error .typeMismatch ↔ altMatches t f.value = false := by
  obtain ⟨n, ty, v⟩ := f
  cases t <;> cases v <;>
    simp [TypeMapper.extract, altMatches, Field.as_integer, Field.as_floating_point,
      Field.as_enumerator, Field.as_string, Field.unwrap, Field.as_collection]

/-- Away from the uninstantiable unknown tag, `TypeMapper::extract` succeeds
exactly when the populated alternative matches the tag. -/
theorem extract_ok_iff (t : FieldType) (f : Field) (hu : t ≠ .unknown) :
    (∃ v, TypeMapper.extract t f = .ok v) ↔ altMatches t f.value = true := by
  obtain ⟨n, ty, v⟩ := f
  cases t <;> cases v <;>
    simp_all [TypeMapper.extract, altMatches, Field.as_integer, Field.as_floating_point,
      Field.as_enumerator, Field.as_string, Field.unwrap, Field.as_collection]

/-! The claim theorems. -/

/-- C1: for every Event and every FieldSpec, `available_in` returns true iff
the fields map contains the bound (scope, name) key and the Field stored
under that key has a type tag equal to the bound type. The lookup and the
tag comparison are total operations, so `available_in` never throws. -/
theorem available_in_iff (s : FieldSpec) (e : Event) :
    s.available_in e = true ↔
      ∃ f, lookupField e.fields (s.scope, s.name) = some f ∧ f.type = s.type := by
  unfold FieldSpec.available_in
  cases h : lookupField e.fields (s.scope, s.name) with
  | none => simp
  | some f => simp [Field.is_a]

/-- C2 (amended): `interpret` returns an empty optional exactly when
`available_in` is false; when `available_in` is true it propagates the
outcome of `interpret_or_throw` exactly — the narrowed value when narrowing
succeeds, and the narrowing exception when the stored alternative disagrees
with the matching type tag. In particular `interpret` is not exception free
on every event. -/
theorem interpret_propagates (s : FieldSpec) (e : Event) :
    (s.interpret e = .ok none ↔ s.available_in e = false)
    ∧ (∀ v, s.interpret e = .ok (some v) ↔
        s.available_in e = true ∧ s.interpret_or_throw e = .ok v)
    ∧ (∀ err, s.interpret e = .error err ↔
        s.available_in e = true ∧ s.interpret_or_throw e = .error err) := by
  unfold FieldSpec.interpret
  by_cases h : s.available_in e = true
  · cases hio : s.interpret_or_throw e <;> simp [h, hio, Except.map]
  · simp only [Bool.not_eq_true] at h
    simp [h]

/-- C2 counterexample: on the event assembled from a raw enumeration field —
exactly what the decode layer produces — the enumeration FieldSpec reports
`available_in` true, yet `interpret` returns no optional at all: it
propagates the narrowing exception, because the stored alternative is the
Integer one while the tag is enumeration. This refutes both "never throws"
and "otherwise returns a value equal to what interpret_or_throw returns". -/
theorem interpret_throws_on_decoded_enum_field :
    assembleEvent enumRawEvent = .ok enumEvent
    ∧ stateSpec.available_in enumEvent = true
    ∧ stateSpec.interpret enumEvent = .error .typeMismatch := by
  refine ⟨by decide, by decide, by decide⟩

/-- C3: for every Event and every FieldSpec whose tag is not the
uninstantiable unknown one, `interpret_or_throw` looks the key up without a
presence check: it fails with the KeyNotFoundError (`std::out_of_range` from
`std::map::at`) exactly when the key is absent, fails with the
TypeMismatchError (`boost::bad_get`) exactly when the key is present but the
populated alternative does not match the bound type, and returns the
narrowed value exactly when the key is present and the alternative matches. -/
theorem interpret_or_throw_char (s : FieldSpec) (e : Event)
    (hu : s.type ≠ .unknown) :
    (s.interpret_or_throw e = .error .keyNotFound ↔
        lookupField e.fields (s.scope, s.name) = none)
    ∧ (s.interpret_or_throw e = .error .typeMismatch ↔
        ∃ f, lookupField e.fields (s.scope, s.name) = some f
          ∧ altMatches s.type f.value = false)
    ∧ ((∃ v, s.interpret_or_throw e = .ok v) ↔
        ∃ f, lookupField e.fields (s.scope, s.name) = some f
          ∧ altMatches s.type f.value = true) := by
  unfold FieldSpec.interpret_or_throw
  cases h : lookupField e.fields (s.scope, s.name) with
  | none => simp
  | some f =>
      refine ⟨?_, ?_, ?_⟩
      · simp [extract_ne_keyNotFound s.type f]
      · simp [extract_typeMismatch_iff s.type f]
      · simp [extract_ok_iff s.type f hu]

/-- Witness for C3: applied to the decoded enumeration event, where the key
is present but the alternative (Integer) does not match the bound type
(enumeration), so the narrowing error is raised. -/
theorem interpret_or_throw_char_witness :
    stateSpec.interpret_or_throw enumEvent = .error .typeMismatch := by
  have h := interpret_or_throw_char stateSpec enumEvent (by decide)
  exact h.2.1.mpr ⟨stateField, by decide, by decide⟩

/-- C8: an Integer built by the signed constructor reports signed, not
empty, and returns the original value from `as_int64`; symmetrically for the
unsigned constructor; the default constructed Integer reports empty and both
accessors fail with the `boost::bad_get` narrowing error. -/
theorem integer_constructor_contract (i : Int) (u : Nat) (w b : Nat)
    (hi1 : -(2 : Int) ^ 63 ≤ i) (hi2 : i < 2 ^ 63) (hu : u < 2 ^ 64) :
    ((Integer.ofSigned i w b).is_signed = true
      ∧ (Integer.ofSigned i w b).is_empty = false
      ∧ (Integer.ofSigned i w b).as_int64 = .ok i)
    ∧ ((Integer.ofUnsigned u w b).is_signed = false
      ∧ (Integer.ofUnsigned u w b).is_empty = false
      ∧ (Integer.ofUnsigned u w b).as_uint64 = .ok u)
    ∧ (Integer.empty.is_empty = true
      ∧ Integer.empty.as_int64 = .error .typeMismatch
      ∧ Integer.empty.as_uint64 = .error .typeMismatch) :=
  ⟨⟨rfl, rfl, rfl⟩, ⟨rfl, rfl, rfl⟩, rfl, rfl, rfl⟩

/-- Witness for C8: evaluated at the signed value -5 and the unsigned
value 7, both 64-bit representable. -/
theorem integer_constructor_contract_witness :
    (Integer.ofSigned (-5) 8 10).is_signed = true
    ∧ (Integer.ofSigned (-5) 8 10).as_int64 = .ok (-5)
    ∧ (Integer.ofUnsigned 7 8 10).as_uint64 = .ok 7 := by
  have h := integer_constructor_contract (-5) 7 8 10 (by decide) (by decide) (by decide)
  exact ⟨h.1.1, h.1.2.2, h.2.1.2.2⟩

/-- C9: textual rendering is total and injective over each closed set: each
of the six Scope values and each of the ten Field type kinds obtains a
nonempty, pairwise distinct text from its stream inserter, and each of the
four EventEnumeratorReply values obtains a nonempty, pairwise distinct text
from the builtin integer inserter on the promoted underlying value (the
repository defines no dedicated inserter for the reply enum). -/
theorem rendering_total_injective :
    (∀ s : Scope, scopeText s ≠ "")
    ∧ (∀ s1 s2 : Scope, scopeText s1 = scopeText s2 → s1 = s2)
    ∧ (∀ t : FieldType, fieldTypeText t ≠ "")
    ∧ (∀ t1 t2 : FieldType, fieldTypeText t1 = fieldTypeText t2 → t1 = t2)
    ∧ (∀ r : EventEnumeratorReply, replyText r ≠ "")
    ∧ (∀ r1 r2 : EventEnumeratorReply, replyText r1 = replyText r2 → r1 = r2) := by
  refine ⟨?_, ?_, ?_, ?_, ?_, ?_⟩
  · intro s; cases s <;> decide
  · intro s1 s2; cases s1 <;> cases s2 <;> decide
  · intro t; cases t <;> decide
  · intro t1 t2; cases t1 <;> cases t2 <;> decide
  · intro r; cases r <;> decide
  · intro r1 r2; cases r1 <;> cases r2 <;> decide

/-- Bind on an ok Except value applies the continuation. -/
theorem except_bind_ok {ε α β : Type} (a : α) (f : α → Except ε β) :
    (Except.ok a >>= f : Except ε β) = f a := rfl

/-- Bind on an error Except value short-circuits. -/
theorem except_bind_error {ε α β : Type} (e : ε) (f : α → Except ε β) :
    ((Except.error e : Except ε α) >>= f) = .error e := rfl

/-- Pure for the Except monad is ok. -/
theorem except_pure {ε α : Type} (a : α) :
    (pure a : Except ε α) = .ok a := rfl

/-- C4: refuted by the code. For an enumeration field the decode step runs
`process_integer_field_value` (ctf.cpp 109 to 111), so the Variant is
populated with the Integer alternative and the symbolic label is never read;
no decode result is ever the Enumerator alternative. The helper
`process_enum_field_value`, which would build the Enumerator, is dead code —
and even it raises a decode failure when the engine cannot supply a label,
instead of populating a best effort label. This contradicts the declared
data model (type enumeration pairs with the Enumerator alternative) and
makes `TypeMapper<enumeration>::extract` fail on every decoded field, so the
code, not the claim, is the slip. -/
theorem enum_decode_stores_integer_not_enumerator :
    decodeFieldValue (.enumField "RUNNING" false 0 0 3 32 10 false)
      = .ok (.integer (Integer.ofUnsigned 3 32 10))
    ∧ (∀ (rf : RawField) (en : Enumerator),
        decodeFieldValue rf ≠ .ok (.enumerator en))
    ∧ process_enum_field_value "RUNNING" false 0 0 3 32 10 false
      = .ok { as_string := "RUNNING", as_integer := Integer.ofUnsigned 3 32 10 }
    ∧ process_enum_field_value "" true 0 0 3 32 10 false
      = .error .enumLabelDecode :=
  ⟨by decide, decode_no_enumerator, by decide, by decide⟩

/-- C5: refuted by the code. For a variant or untagged_variant field the
selected arm is decoded and its Variant is copy-assigned to the result
(ctf.cpp 127 to 134), which keeps the populated alternative of the arm; the
recursive boxed alternative is never populated by any decode, so
`Field::unwrap` raises the narrowing error on every decoded variant field
instead of returning the nested Variant. -/
theorem variant_decode_copies_arm_not_boxed :
    decodeFieldValue (.variantField true (.integerField 0 0 7 64 16))
      = .ok (.integer (Integer.ofUnsigned 7 64 16))
    ∧ (∀ (rf : RawField) (v : Variant), decodeFieldValue rf ≠ .ok (.boxed v))
    ∧ Field.unwrap { name := "u", type := .variant, value := .integer (Integer.ofUnsigned 7 64 16) } = .error .typeMismatch :=
  ⟨by decide, decode_no_boxed, by decide⟩

/-- A failing field decode makes the per-scope assembly loop fail, whatever
the accumulated map holds and wherever the field sits in the list: each
listed field is decoded before the insertion, so the exception is raised
even for a field whose key is already taken. -/
theorem assembleScopeFields_error (scope : Scope) :
    ∀ (l : List (String × RawField)) (fs : Fields),
    (∃ p ∈ l, ∃ e0, decodeFieldValue p.2 = .error e0) →
    ∃ err, assembleScopeFields scope fs l = .error err := by
  intro l
  induction l with
  | nil => intro fs h; simp at h
  | cons p rest ih =>
      intro fs h
      obtain ⟨n, rf⟩ := p
      obtain ⟨q, hq, e0, he0⟩ := h
      cases hd : process_field_definition n rf with
      | error err =>
          exact ⟨err, by simp [assembleScopeFields, hd, except_bind_error]⟩
      | ok f =>
          rcases List.mem_cons.mp hq with hq1 | hq2
          · exfalso
            subst hq1
            unfold process_field_definition at hd
            rw [he0] at hd
            simp [Except.map] at hd
          · obtain ⟨err, herr⟩ := ih (insertField fs (scope, n) f) ⟨q, hq2, e0, he0⟩
            exact ⟨err, by simp [assembleScopeFields, hd, except_bind_ok, herr]⟩

/-- A failing field decode in any visited scope makes the whole multi-scope
assembly fail. -/
theorem assembleScopes_error (raw : Scope → List (String × RawField)) :
    ∀ (sl : List Scope) (fs : Fields) (s : Scope), s ∈ sl →
    (∃ p ∈ raw s, ∃ e0, decodeFieldValue p.2 = .error e0) →
    ∃ err, assembleScopes raw fs sl = .error err := by
  intro sl
  induction sl with
  | nil => intro fs s hs; simp at hs
  | cons s0 rest ih =>
      intro fs s hs hfail
      cases hd : assembleScopeFields s0 fs (raw s0) with
      | error err =>
          exact ⟨err, by simp [assembleScopes, hd, except_bind_error]⟩
      | ok fs2 =>
          rcases List.mem_cons.mp hs with h1 | h2
          · subst h1
            obtain ⟨err, herr⟩ := assembleScopeFields_error s (raw s) fs hfail
            rw [hd] at herr
            simp at herr
          · obtain ⟨err, herr⟩ := ih fs2 s h2 hfail
            exact ⟨err, by simp [assembleScopes, hd, except_bind_ok, herr]⟩

/-- C6: a DecodeError while decoding a field value aborts assembly of the
whole Event and enumeration with it. First part: whenever the events before
the bad one assemble and the handler keeps the loop going on them, the loop
dispatches exactly the fully assembled events preceding the bad one (the
handler is never invoked with anything derived from the bad or later raw
events, so no partial event is surfaced) and terminates with the error as
the final outcome — the bad event is not skipped. Second part: a failing
value decode for any engine-listed field of any visited scope makes the
whole Event assembly fail. Of the leaf readers, the float and string ones
fail when the engine error flag is set; the integer reader never consults
the flag and cannot fail. -/
theorem decode_error_aborts :
    (∀ (h : Event → EventEnumeratorReply) (rs1 : List RawEvent) (bad : RawEvent)
        (rs2 : List RawEvent) (es1 : List Event) (err : DecodeError),
      assembleAll rs1 = .ok es1 →
      (∀ e ∈ es1, h e = .ok ∨ h e = .continue_with_error) →
      assembleEvent bad = .error err →
      runEvents h (rs1 ++ bad :: rs2) = (es1, .failed err))
    ∧ (∀ (re : RawEvent) (s : Scope) (p : String × RawField) (e0 : DecodeError),
        s ∈ scopes → p ∈ re.scopeFields s → decodeFieldValue p.2 = .error e0 →
        ∃ err, assembleEvent re = .error err) := by
  constructor
  · intro h rs1
    induction rs1 with
    | nil =>
        intro bad rs2 es1 err h1 h2 h3
        simp only [assembleAll] at h1
        injection h1 with h1
        subst h1
        simp [runEvents, h3]
    | cons r rest ih =>
        intro bad rs2 es1 err h1 h2 h3
        cases hr : assembleEvent r with
        | error e1 => rw [assembleAll, hr, except_bind_error] at h1; exact absurd h1 (by simp)
        | ok e =>
            rw [assembleAll, hr, except_bind_ok] at h1
            cases ha : assembleAll rest with
            | error e2 => rw [ha, except_bind_error] at h1; exact absurd h1 (by simp)
            | ok es =>
                rw [ha, except_bind_ok, except_pure] at h1
                injection h1 with h1
                subst h1
                have hcont := h2 e (List.mem_cons_self e es)
                have htail : ∀ x ∈ es, h x = .ok ∨ h x = .continue_with_error :=
                  fun x hx => h2 x (List.mem_cons_of_mem e hx)
                have hrec := ih bad rs2 es err ha htail h3
                rcases hcont with hh | hh <;>
                  simp [runEvents, hr, hh, to_c_api, hrec]
  · intro re s p e0 hs hp he0
    obtain ⟨err, herr⟩ := assembleScopes_error re.scopeFields scopes [] s hs ⟨p, hp, e0, he0⟩
    exact ⟨err, by simp [assembleEvent, herr, Except.map]⟩

/-- Witness for C6: a two-event trace where the second raw event has a float
field whose decode fails; the handler sees only the first event and the
enumeration ends with the float decode error. -/
theorem decode_error_aborts_witness :
    runEvents allOk [simpleRawEvent "a", badFloatRawEvent]
      = ([simpleEvent "a"], .failed .floatDecode) := by
  have h := decode_error_aborts.1 allOk [simpleRawEvent "a"] badFloatRawEvent []
    [simpleEvent "a"] .floatDecode (by decide) (by decide) (by decide)
  simpa using h

/-- C7: when every assembled event before the last one draws the reply ok
and the last one draws stop, the loop dispatches every event, in engine
order, and terminates in the stopped state — not by cursor exhaustion. -/
theorem enumeration_dispatch_until_stop (h : Event → EventEnumeratorReply) :
    ∀ (rs : List RawEvent) (front : List Event) (last : Event),
    assembleAll rs = .ok (front ++ [last]) →
    (∀ e ∈ front, h e = .ok) →
    h last = .stop →
    runEvents h rs = (front ++ [last], .stopped) := by
  intro rs
  induction rs with
  | nil =>
      intro front last h1 _ _
      simp only [assembleAll] at h1
      injection h1 with h1
      exact absurd h1.symm (by simp)
  | cons r rest ih =>
      intro front last h1 hok hstop
      cases hr : assembleEvent r with
      | error e1 => rw [assembleAll, hr, except_bind_error] at h1; exact absurd h1 (by simp)
      | ok e =>
          rw [assembleAll, hr, except_bind_ok] at h1
          cases ha : assembleAll rest with
          | error e2 => rw [ha, except_bind_error] at h1; exact absurd h1 (by simp)
          | ok es =>
              rw [ha, except_bind_ok, except_pure] at h1
              injection h1 with h1
              cases front with
              | nil =>
                  simp only [List.nil_append] at h1
                  have he : e = last := (List.cons.inj h1).1
                  subst he
                  simp [runEvents, hr, hstop, to_c_api]
              | cons f front2 =>
                  simp only [List.cons_append] at h1
                  have he : e = f := (List.cons.inj h1).1
                  have hes : es = front2 ++ [last] := (List.cons.inj h1).2
                  subst he
                  have hf : h e = .ok := hok e (List.mem_cons_self e front2)
                  have htail : ∀ x ∈ front2, h x = .ok :=
                    fun x hx => hok x (List.mem_cons_of_mem e hx)
                  have hrec := ih front2 last (by rw [ha, hes]) htail hstop
                  simp [runEvents, hr, hf, to_c_api, hrec]

/-- Witness for C7: a two-event trace with a handler that replies ok to the
event named a and stop to the event named b; both events are dispatched in
order and the loop terminates stopped. -/
theorem enumeration_dispatch_until_stop_witness :
    runEvents stopAtB [simpleRawEvent "a", simpleRawEvent "b"]
      = ([simpleEvent "a", simpleEvent "b"], .stopped) := by
  have h := enumeration_dispatch_until_stop stopAtB
    [simpleRawEvent "a", simpleRawEvent "b"]
    [simpleEvent "a"] (simpleEvent "b") (by decide) (by decide) (by decide)
  simpa using h

/-- Lookup distributes over appended field lists: the left list takes
precedence. -/
theorem lookup_append (fs1 fs2 : Fields) (k : EventKey) :
    lookupField (fs1 ++ fs2) k =
      match lookupField fs1 k with
      | some f => some f
      | none => lookupField fs2 k := by
  induction fs1 with
  | nil => simp [lookupField]
  | cons p rest ih =>
      by_cases hp : p.1 = k <;> simp [lookupField, hp, ih]

/-- A key is absent from the lookup exactly when it is not among the keys. -/
theorem lookup_none_iff (fs : Fields) (k : EventKey) :
    lookupField fs k = none ↔ k ∉ fs.map Prod.fst := by
  induction fs with
  | nil => simp [lookupField]
  | cons p rest ih =>
      by_cases hp : p.1 = k
      · simp [lookupField, hp]
      · have hk : ¬(k = p.1) := fun hh => hp hh.symm
        simp [lookupField, hp, ih, hk, not_or]

/-- Folding map insertion over a list of pairs: an already present key wins
over every pair, and among the inserted pairs the first occurrence of a key
wins — exactly `List.find?` on the pair list. -/
theorem lookup_insertAll (ps : List (EventKey × Field)) :
    ∀ (fs : Fields) (k : EventKey),
    lookupField (insertAll fs ps) k =
      match lookupField fs k with
      | some f => some f
      | none => (ps.find? fun p => decide (p.1 = k)).map Prod.snd := by
  induction ps with
  | nil =>
      intro fs k
      cases h : lookupField fs k <;> simp [insertAll, h]
  | cons p ps ih =>
      intro fs k
      have hstep : insertAll fs (p :: ps) = insertAll (insertField fs p.1 p.2) ps := rfl
      rw [hstep, ih]
      by_cases hpk : p.1 = k
      · subst hpk
        cases hfind : lookupField fs p.1 with
        | some f => simp [insertField, hfind]
        | none =>
            simp only [insertField, hfind, lookup_append]
            cases hk : lookupField fs p.1 with
            | some f => exact absurd hk (by simp [hfind])
            | none => simp [lookupField, List.find?_cons]
      · cases hfind : lookupField fs p.1 with
        | some f =>
            simp only [insertField, hfind]
            cases hk : lookupField fs k <;> simp [List.find?_cons, hpk]
        | none =>
            simp only [insertField, hfind, lookup_append]
            cases hk : lookupField fs k <;> simp [lookupField, hpk, List.find?_cons]

/-- Folding map insertion preserves uniqueness of keys. -/
theorem keys_nodup_insertAll (ps : List (EventKey × Field)) :
    ∀ fs : Fields, (fs.map Prod.fst).Nodup → ((insertAll fs ps).map Prod.fst).Nodup := by
  induction ps with
  | nil => intro fs h; exact h
  | cons p ps ih =>
      intro fs h
      have hstep : insertAll fs (p :: ps) = insertAll (insertField fs p.1 p.2) ps := rfl
      rw [hstep]
      refine ih (insertField fs p.1 p.2) ?_
      cases hfind : lookupField fs p.1 with
      | some f => simpa [insertField, hfind] using h
      | none =>
          have hnotin : p.1 ∉ fs.map Prod.fst := (lookup_none_iff fs p.1).mp hfind
          simp [insertField, hfind, List.nodup_append, h, hnotin]

/-- The per-scope assembly loop equals decoding the scope into the flat pair
list and then folding the insertions. -/
theorem assembleScopeFields_eq (scope : Scope) :
    ∀ (l : List (String × RawField)) (fs : Fields),
    assembleScopeFields scope fs l = (decodeScopePairs scope l).map (insertAll fs) := by
  intro l
  induction l with
  | nil => intro fs; simp [assembleScopeFields, decodeScopePairs, insertAll, Except.map]
  | cons p rest ih =>
      intro fs
      obtain ⟨n, rf⟩ := p
      cases hd : process_field_definition n rf with
      | error err =>
          simp [assembleScopeFields, decodeScopePairs, hd, except_bind_error, Except.map]
      | ok f =>
          rw [assembleScopeFields, decodeScopePairs, hd, except_bind_ok, except_bind_ok, ih]
          cases hps : decodeScopePairs scope rest <;>
            simp [hps, except_bind_ok, except_bind_error, except_pure, Except.map, insertAll]

/-- The multi-scope assembly loop equals decoding all scopes into the flat
pair list and then folding the insertions. -/
theorem assembleScopes_eq (raw : Scope → List (String × RawField)) :
    ∀ (sl : List Scope) (fs : Fields),
    assembleScopes raw fs sl = (decodeScopesPairs raw sl).map (insertAll fs) := by
  intro sl
  induction sl with
  | nil => intro fs; simp [assembleScopes, decodeScopesPairs, insertAll, Except.map]
  | cons s rest ih =>
      intro fs
      rw [assembleScopes, decodeScopesPairs, assembleScopeFields_eq]
      cases hps : decodeScopePairs s (raw s) with
      | error err => simp [hps, except_bind_error, Except.map]
      | ok ps =>
          simp only [Except.map, except_bind_ok]
          rw [ih]
          cases hqs : decodeScopesPairs raw rest <;>
            simp [hqs, except_bind_ok, except_bind_error, except_pure, Except.map,
              insertAll, List.foldl_append]

/-- C10: when the engine reports two fields with the same (Scope, name) key
within one event, the field decoded first is kept and every later duplicate
is silently discarded by `std::map::insert`: the assembled fields map has
pairwise distinct keys, and looking a key up returns exactly the first field
decoded for that key in decode order. -/
theorem assembled_fields_first_insert_wins (re : RawEvent) (e : Event)
    (he : assembleEvent re = .ok e) :
    (e.fields.map Prod.fst).Nodup
    ∧ ∃ ps, decodedPairs re = .ok ps
        ∧ ∀ k, lookupField e.fields k = (ps.find? fun p => decide (p.1 = k)).map Prod.snd := by
  unfold assembleEvent at he
  rw [assembleScopes_eq] at he
  cases hps : decodeScopesPairs re.scopeFields scopes with
  | error err => rw [hps] at he; exact absurd he (by simp [Except.map])
  | ok ps =>
      rw [hps] at he
      simp only [Except.map] at he
      injection he with he
      have hfields : e.fields = insertAll [] ps := by rw [← he]
      constructor
      · rw [hfields]
        exact keys_nodup_insertAll ps [] (by simp)
      · refine ⟨ps, hps, fun k => ?_⟩
        rw [hfields, lookup_insertAll]
        simp [lookupField]

/-- Witness for C10: the engine reports the key k twice in the event_fields
scope, first with value 1 and then with value 2; the assembled event keeps
the field with value 1. -/
theorem assembled_fields_first_insert_wins_witness :
    lookupField dupEvent.fields (.event_fields, "k")
      = some { name := "k", type := .integer, value := .integer (Integer.ofUnsigned 1 8 10) } := by
  have h := assembled_fields_first_insert_wins dupRawEvent dupEvent (by decide)
  obtain ⟨ps, hps, hk⟩ := h.2
  have hps2 : decodedPairs dupRawEvent
      = .ok [((.event_fields, "k"), { name := "k", type := .integer, value := .integer (Integer.ofUnsigned 1 8 10) }),
             ((.event_fields, "k"), { name := "k", type := .integer, value := .integer (Integer.ofUnsigned 2 8 10) })] := by
    decide
  rw [hps] at hps2
  injection hps2 with hps2
  subst hps2
  rw [hk]
  decide

end ctf
